import Mathlib

/-!
A verification development for the run-handler service (`cmd/server/main.go`).

Modelling conventions:
* Go byte strings and byte buffers are modelled as `List Char`, one `Char`
  per byte (all bytes relevant to the claims are ASCII).
* Go `int` values produced by `strconv.Atoi` are modelled as `Int`
  (overflow is irrelevant at the sizes the service works with, so the
  parse is modelled unbounded).
* Nondeterministic external calls (`uuid.New`, the S3 and Postgres round
  trips, goroutine completion order) are modelled as explicit oracle
  parameters.
-/

/-! ## Basic character and string helpers -/

/-- The literal byte `{` (kept as a named constant). -/
def lbrace : Char := '{'

/-- The literal byte `}` (kept as a named constant). -/
def rbrace : Char := '}'

/-- The two-byte empty-object token the encoder emits for empty fields. -/
def emptyObj : List Char := [lbrace, rbrace]

/-- Decimal digit value of a character, `none` when it is not `0`-`9`
(the digit test inside `strconv.Atoi`). -/
def digitVal (c : Char) : Option Nat :=
  if '0' ≤ c ∧ c ≤ '9' then some (c.toNat - '0'.toNat) else none

/-- The character for a decimal digit. -/
def digitChar (d : Nat) : Char := Char.ofNat ('0'.toNat + d)

/-- Fuelled decimal rendering; the fuel only bounds the recursion depth
and is always sufficient at the use site. -/
def natDigitsAux : Nat → Nat → List Char
  | 0, _ => []
  | fuel + 1, n =>
    if n < 10 then [digitChar n]
    else natDigitsAux fuel (n / 10) ++ [digitChar (n % 10)]

/-- Decimal rendering of a natural number, most significant digit first
(the behaviour of `fmt.Sprintf("%d", n)` for a non-negative `int`). -/
def natDigits (n : Nat) : List Char := natDigitsAux (n + 1) n

/-- Accumulating decimal parse, `none` on the first non-digit
(the digit loop inside `strconv.Atoi`). -/
def parseNatAux : Nat → List Char → Option Nat
  | acc, [] => some acc
  | acc, c :: cs =>
    match digitVal c with
    | some d => parseNatAux (acc * 10 + d) cs
    | none => none

/-- Parse an unsigned decimal number; the empty string is rejected. -/
def parseNatDigits (s : List Char) : Option Nat :=
  if s = [] then none else parseNatAux 0 s

/-- Model of Go `strconv.Atoi`: optional sign followed by one or more
decimal digits; anything else is an error (`none`). -/
def goAtoi (s : List Char) : Option Int :=
  match s with
  | [] => none
  | c :: rest =>
    if c = '-' then (parseNatDigits rest).map (fun n => -(n : Int))
    else if c = '+' then (parseNatDigits rest).map (fun n => (n : Int))
    else (parseNatDigits (c :: rest)).map (fun n => (n : Int))

/-- Model of Go `strings.HasPrefix needle hay` (needle given first). -/
def startsWith : List Char → List Char → Bool
  | [], _ => true
  | _ :: _, [] => false
  | p :: ps, c :: cs => p = c && startsWith ps cs

/-- Model of Go `strings.IndexByte`: index of the first occurrence of a
character, `none` when absent (Go returns `-1`). -/
def indexByte : List Char → Char → Option Nat
  | [], _ => none
  | c :: rest, t => if c = t then some 0 else (indexByte rest t).map (· + 1)

/-- Model of Go `strings.SplitN(s, sep, 2)`: one part when the separator
is absent, otherwise the text before and after its first occurrence. -/
def splitN2 (s : List Char) (sep : Char) : List (List Char) :=
  match indexByte s sep with
  | none => [s]
  | some i => [s.take i, s.drop (i + 1)]

/-! ## The reference codec (`parseS3Ref` and the `fmt.Sprintf` encoder) -/

/-- Result of `parseS3Ref`: the five named return values of the Go
function (`bucket, key string, start, end int, ok bool`). -/
structure ParsedRef where
  bucket : List Char
  key : List Char
  start : Int
  stop : Int
  ok : Bool
  deriving DecidableEq, Repr

/-- Parse the offsets part `start:end` of a fragment with `strconv.Atoi`
on both halves of a `strings.SplitN(offsets, ":", 2)`. -/
def goAtoiPair (offsets : List Char) : Option (Int × Int) :=
  match splitN2 offsets ':' with
  | [p0, p1] =>
    match goAtoi p0, goAtoi p1 with
    | some st, some en => some (st, en)
    | _, _ => none
  | _ => none

/-- Model of `parseS3Ref`: parses refs like `s3://bucket/key#start:end/field`.
Mirrors the Go control flow: zero-valued named returns, `ok` set only when
both offsets parse; the trailing field name is never inspected beyond the
requirement that a `/` follows the offsets. -/
def parseS3Ref (ref : List Char) : ParsedRef :=
  if ref = [] ∨ startsWith "s3://".data ref = false then ⟨[], [], 0, 0, false⟩
  else
    match indexByte (ref.drop 5) '/' with
    | none => ⟨[], [], 0, 0, false⟩
    | some slash =>
      let rest := ref.drop 5
      let bucket := rest.take slash
      let keyAndFrag := rest.drop (slash + 1)
      match indexByte keyAndFrag '#' with
      | none => ⟨bucket, keyAndFrag, 0, 0, false⟩
      | some hash =>
        let key := keyAndFrag.take hash
        let frag := keyAndFrag.drop (hash + 1)
        match indexByte frag '/' with
        | none => ⟨bucket, key, 0, 0, false⟩
        | some slash2 =>
          match goAtoiPair (frag.take slash2) with
          | some (st, en) => ⟨bucket, key, st, en, true⟩
          | none => ⟨bucket, key, 0, 0, false⟩

/-- The reference encoder: the `fmt.Sprintf("s3://%s/%s#%d:%d/%s", ...)`
calls that build `inputsRef`, `outputsRef` and `metadataRef`. -/
def encodeRef (bucket key : List Char) (start stop : Nat) (field : List Char) : List Char :=
  "s3://".data ++ (bucket ++ ('/' :: (key ++ ('#' ::
    (natDigits start ++ (':' :: (natDigits stop ++ ('/' :: field))))))))

/-! ## Arithmetic and list lemmas about the helpers -/

theorem take_len_append (a b : List Char) : (a ++ b).take a.length = a := by
  induction a with
  | nil => simp
  | cons c cs ih => simp [ih]

theorem drop_len_append (a b : List Char) : (a ++ b).drop a.length = b := by
  induction a with
  | nil => simp
  | cons c cs ih => simp [ih]

/-- Slice a buffer over a half-open byte interval (the bytes a range read
bounded by `[start, stop)` returns). -/
def byteSlice (l : List Char) (start stop : Nat) : List Char :=
  (l.drop start).take (stop - start)

theorem slice_exact (a f r : List Char) :
    byteSlice (a ++ (f ++ r)) a.length (a.length + f.length) = f := by
  unfold byteSlice
  rw [drop_len_append, Nat.add_sub_cancel_left, take_len_append]

theorem slice_append_of_le (l ext : List Char) (start stop : Nat)
    (hs : start ≤ l.length) (he : stop ≤ l.length) :
    byteSlice (l ++ ext) start stop = byteSlice l start stop := by
  unfold byteSlice
  rw [List.drop_append_eq_append_drop, Nat.sub_eq_zero_of_le hs, List.drop_zero]
  rw [List.take_append_eq_append_take]
  have hlen : stop - start ≤ (l.drop start).length := by
    simp only [List.length_drop]; omega
  rw [Nat.sub_eq_zero_of_le hlen, List.take_zero, List.append_nil]

theorem startsWith_append (p r : List Char) : startsWith p (p ++ r) = true := by
  induction p with
  | nil => simp [startsWith]
  | cons c cs ih => simp [startsWith, ih]

theorem indexByte_of_notMem {l : List Char} {t : Char} (h : t ∉ l) :
    indexByte l t = none := by
  induction l with
  | nil => rfl
  | cons c cs ih =>
    simp only [List.mem_cons, not_or] at h
    simp [indexByte, Ne.symm h.1, ih h.2]

theorem indexByte_append_first {a : List Char} {t : Char} (b : List Char) (h : t ∉ a) :
    indexByte (a ++ t :: b) t = some a.length := by
  induction a with
  | nil => simp [indexByte]
  | cons c cs ih =>
    simp only [List.mem_cons, not_or] at h
    simp [indexByte, Ne.symm h.1, ih h.2]

theorem parseNatAux_append (acc : Nat) (xs ys : List Char) :
    parseNatAux acc (xs ++ ys) =
      match parseNatAux acc xs with
      | some a => parseNatAux a ys
      | none => none := by
  induction xs generalizing acc with
  | nil => simp [parseNatAux]
  | cons c cs ih =>
    simp only [List.cons_append, parseNatAux]
    cases digitVal c with
    | none => rfl
    | some d => exact ih (acc * 10 + d)

theorem digitVal_digitChar {d : Nat} (h : d < 10) : digitVal (digitChar d) = some d := by
  interval_cases d <;> rfl

theorem natDigitsAux_fuel : ∀ fuel fuel2 n, n < fuel → n < fuel2 →
    natDigitsAux fuel n = natDigitsAux fuel2 n := by
  intro fuel
  induction fuel with
  | zero => intro fuel2 n h; omega
  | succ f ih =>
    intro fuel2 n h1 h2
    cases fuel2 with
    | zero => omega
    | succ f2 =>
      simp only [natDigitsAux]
      by_cases hlt : n < 10
      · simp [hlt]
      · have hq : n / 10 < n := Nat.div_lt_self (by omega) (by omega)
        rw [if_neg hlt, if_neg hlt, ih f2 (n / 10) (by omega) (by omega)]

theorem natDigits_eq (n : Nat) : natDigits n =
    if n < 10 then [digitChar n] else natDigits (n / 10) ++ [digitChar (n % 10)] := by
  by_cases hlt : n < 10
  · rw [if_pos hlt]
    unfold natDigits
    simp [natDigitsAux, hlt]
  · rw [if_neg hlt]
    show natDigitsAux (n + 1) n = natDigitsAux (n / 10 + 1) (n / 10) ++ [digitChar (n % 10)]
    have hstep : natDigitsAux (n + 1) n = natDigitsAux n (n / 10) ++ [digitChar (n % 10)] := by
      simp [natDigitsAux, hlt]
    rw [hstep, natDigitsAux_fuel n (n / 10 + 1) (n / 10) (by omega) (by omega)]

theorem natDigits_mem_digit {n : Nat} {c : Char} (h : c ∈ natDigits n) :
    '0' ≤ c ∧ c ≤ '9' := by
  induction n using Nat.strong_induction_on with
  | _ n ih =>
    rw [natDigits_eq] at h
    by_cases hlt : n < 10
    · simp only [hlt, if_pos, List.mem_singleton] at h
      subst h
      interval_cases n <;> exact ⟨by decide, by decide⟩
    · simp only [hlt, if_neg, not_false_iff, List.mem_append, List.mem_singleton] at h
      rcases h with h | h
      · exact ih (n / 10) (by omega) h
      · subst h
        have : n % 10 < 10 := Nat.mod_lt _ (by omega)
        interval_cases hm : n % 10 <;> exact ⟨by decide, by decide⟩

theorem natDigits_ne_nil (n : Nat) : natDigits n ≠ [] := by
  rw [natDigits_eq]
  by_cases hlt : n < 10 <;> simp [hlt]

theorem parseNatAux_natDigits (n : Nat) : ∀ acc,
    parseNatAux acc (natDigits n) = some (acc * 10 ^ (natDigits n).length + n) := by
  induction n using Nat.strong_induction_on with
  | _ n ih =>
    intro acc
    rw [natDigits_eq]
    by_cases hlt : n < 10
    · simp only [hlt, if_pos]
      simp [parseNatAux, digitVal_digitChar hlt]
    · simp only [hlt, if_neg, not_false_iff]
      rw [parseNatAux_append, ih (n / 10) (by omega) acc]
      have hm : n % 10 < 10 := Nat.mod_lt _ (by omega)
      simp only [parseNatAux, digitVal_digitChar hm]
      congr 1
      have hdm := Nat.div_add_mod n 10
      simp only [List.length_append, List.length_singleton]
      ring_nf
      omega

theorem parseNatDigits_natDigits (n : Nat) : parseNatDigits (natDigits n) = some n := by
  unfold parseNatDigits
  rw [if_neg (natDigits_ne_nil n), parseNatAux_natDigits]
  simp

theorem goAtoi_natDigits (n : Nat) : goAtoi (natDigits n) = some (n : Int) := by
  obtain ⟨c, cs, hcons⟩ : ∃ c cs, natDigits n = c :: cs := by
    cases h : natDigits n with
    | nil => exact absurd h (natDigits_ne_nil n)
    | cons c cs => exact ⟨c, cs, rfl⟩
  have hdig : '0' ≤ c ∧ c ≤ '9' := natDigits_mem_digit (by rw [hcons]; exact List.mem_cons_self c cs)
  have hne1 : c ≠ '-' := by rintro rfl; exact absurd hdig.1 (by decide)
  have hne2 : c ≠ '+' := by rintro rfl; exact absurd hdig.1 (by decide)
  rw [hcons, goAtoi, if_neg hne1, if_neg hne2, ← hcons, parseNatDigits_natDigits]
  rfl

theorem notMem_natDigits {c : Char} (n : Nat) (h : ¬('0' ≤ c ∧ c ≤ '9')) :
    c ∉ natDigits n :=
  fun hm => h (natDigits_mem_digit hm)

theorem drop_len_succ_append (a : List Char) (c : Char) (b : List Char) :
    (a ++ c :: b).drop (a.length + 1) = b := by
  have h1 : a ++ c :: b = (a ++ [c]) ++ b := by simp
  have h2 : a.length + 1 = (a ++ [c]).length := by simp
  rw [h1, h2, drop_len_append]

/-- A reference string with well-delimited bucket, key and fragment parts
(shared shape of every ref the encoder produces). -/
def refAssemble (b k frag : List Char) : List Char :=
  "s3://".data ++ (b ++ ('/' :: (k ++ ('#' :: frag))))

theorem parseS3Ref_assembled (b k frag : List Char) (hb : '/' ∉ b) (hk : '#' ∉ k) :
    parseS3Ref (refAssemble b k frag) =
      match indexByte frag '/' with
      | none => ⟨b, k, 0, 0, false⟩
      | some slash2 =>
        match goAtoiPair (frag.take slash2) with
        | some (st, en) => ⟨b, k, st, en, true⟩
        | none => ⟨b, k, 0, 0, false⟩ := by
  have hne : refAssemble b k frag ≠ [] := by simp [refAssemble]
  have hpre : startsWith "s3://".data (refAssemble b k frag) = true := by
    unfold refAssemble
    exact startsWith_append _ _
  unfold parseS3Ref
  rw [if_neg (by simp [hne, hpre])]
  have hd5 : (refAssemble b k frag).drop 5 = b ++ '/' :: (k ++ '#' :: frag) := by
    unfold refAssemble
    have h5 : ("s3://".data).length = 5 := rfl
    rw [← h5, drop_len_append]
  rw [hd5, indexByte_append_first _ hb]
  simp only [take_len_append, drop_len_succ_append]
  rw [indexByte_append_first _ hk]
  simp only [take_len_append, drop_len_succ_append]

/-- Round trip of the reference codec on the four components the decoder
returns: for a bucket without `/`, a key without `#`, and any offsets and
field name, decoding the encoded form recovers bucket, key and both
offsets, with `ok = true`. -/
theorem parseS3Ref_encodeRef (b k : List Char) (s e : Nat) (f : List Char)
    (hb : '/' ∉ b) (hk : '#' ∉ k) :
    parseS3Ref (encodeRef b k s e f) = ⟨b, k, (s : Int), (e : Int), true⟩ := by
  have hshape : encodeRef b k s e f
      = refAssemble b k (natDigits s ++ (':' :: (natDigits e ++ ('/' :: f)))) := rfl
  rw [hshape, parseS3Ref_assembled b k _ hb hk]
  have hnoslash : '/' ∉ natDigits s ++ (':' :: natDigits e) := by
    intro hmem
    rcases List.mem_append.mp hmem with h | h
    · exact notMem_natDigits s (by decide) h
    · rcases List.mem_cons.mp h with h | h
      · exact absurd h (by decide)
      · exact notMem_natDigits e (by decide) h
  have hfrag : natDigits s ++ (':' :: (natDigits e ++ ('/' :: f)))
      = (natDigits s ++ (':' :: natDigits e)) ++ ('/' :: f) := by simp
  rw [hfrag, indexByte_append_first _ hnoslash]
  simp only [take_len_append]
  have hsplit : splitN2 (natDigits s ++ ':' :: natDigits e) ':'
      = [natDigits s, natDigits e] := by
    unfold splitN2
    rw [indexByte_append_first _ (notMem_natDigits s (by decide))]
    simp only [take_len_append, drop_len_succ_append]
  unfold goAtoiPair
  rw [hsplit]
  simp only [goAtoi_natDigits]

theorem parseS3Ref_no_scheme {s : List Char} (h : startsWith "s3://".data s = false) :
    (parseS3Ref s).ok = false := by
  unfold parseS3Ref
  rw [if_pos (Or.inr h)]

theorem parseS3Ref_no_slash (rest : List Char) (h : '/' ∉ rest) :
    (parseS3Ref ("s3://".data ++ rest)).ok = false := by
  have hpre : startsWith "s3://".data ("s3://".data ++ rest) = true := startsWith_append _ _
  have hne : "s3://".data ++ rest ≠ [] := by simp
  unfold parseS3Ref
  rw [if_neg (fun hg => hg.elim hne (fun h2 => by rw [hpre] at h2; exact absurd h2 (by decide)))]
  have hd5 : ("s3://".data ++ rest).drop 5 = rest := by
    have h5 : ("s3://".data).length = 5 := rfl
    rw [← h5, drop_len_append]
  rw [hd5, indexByte_of_notMem h]

theorem parseS3Ref_no_hash {s : List Char} (h : '#' ∉ s) :
    (parseS3Ref s).ok = false := by
  unfold parseS3Ref
  by_cases hg : s = [] ∨ startsWith "s3://".data s = false
  · rw [if_pos hg]
  · rw [if_neg hg]
    cases h1 : indexByte (s.drop 5) '/' with
    | none => rfl
    | some slash =>
      have hsub : '#' ∉ (s.drop 5).drop (slash + 1) := fun hm =>
        h (List.drop_subset _ _ (List.drop_subset _ _ hm))
      simp only [indexByte_of_notMem hsub]

theorem parseS3Ref_no_frag_slash (b k frag : List Char)
    (hb : '/' ∉ b) (hk : '#' ∉ k) (hf : '/' ∉ frag) :
    (parseS3Ref (refAssemble b k frag)).ok = false := by
  rw [parseS3Ref_assembled b k frag hb hk, indexByte_of_notMem hf]

theorem parseS3Ref_bad_offsets (b k off f : List Char)
    (hb : '/' ∉ b) (hk : '#' ∉ k) (ho : '/' ∉ off) (hbad : goAtoiPair off = none) :
    (parseS3Ref (refAssemble b k (off ++ '/' :: f))).ok = false := by
  rw [parseS3Ref_assembled b k _ hb hk, indexByte_append_first _ ho]
  simp only [take_len_append, hbad]

/-- C7: reference decoding is total (it is a plain function of the input
string, defined on every input); malformed input — missing `s3://` scheme,
missing the bucket/key `/` separator, missing the `#` fragment, missing
the `/` delimiter inside the fragment, or offsets that `strconv.Atoi`
rejects — yields `ok = false`, and the empty string also yields
`ok = false`. -/
theorem claim_c7 :
    (parseS3Ref []).ok = false
    ∧ (∀ s, startsWith "s3://".data s = false → (parseS3Ref s).ok = false)
    ∧ (∀ rest, '/' ∉ rest → (parseS3Ref ("s3://".data ++ rest)).ok = false)
    ∧ (∀ s, '#' ∉ s → (parseS3Ref s).ok = false)
    ∧ (∀ b k frag, '/' ∉ b → '#' ∉ k → '/' ∉ frag →
        (parseS3Ref (refAssemble b k frag)).ok = false)
    ∧ (∀ b k off f, '/' ∉ b → '#' ∉ k → '/' ∉ off → goAtoiPair off = none →
        (parseS3Ref (refAssemble b k (off ++ '/' :: f))).ok = false) :=
  ⟨rfl, fun _ h => parseS3Ref_no_scheme h, parseS3Ref_no_slash,
    fun _ h => parseS3Ref_no_hash h, parseS3Ref_no_frag_slash, parseS3Ref_bad_offsets⟩

/-- Witness for claim C7 at concrete malformed references. -/
theorem claim_c7_witness :
    (parseS3Ref []).ok = false
    ∧ (parseS3Ref "http://b/k".data).ok = false
    ∧ (parseS3Ref ("s3://".data ++ "bucketonly".data)).ok = false
    ∧ (parseS3Ref "s3://b/key-no-fragment".data).ok = false
    ∧ (parseS3Ref (refAssemble "b".data "k".data "0:2".data)).ok = false
    ∧ (parseS3Ref (refAssemble "b".data "k".data ("0:x".data ++ '/' :: "inputs".data))).ok = false :=
  ⟨claim_c7.1,
    claim_c7.2.1 "http://b/k".data (by decide),
    claim_c7.2.2.1 "bucketonly".data (by decide),
    claim_c7.2.2.2.1 "s3://b/key-no-fragment".data (by decide),
    claim_c7.2.2.2.2.1 "b".data "k".data "0:2".data (by decide) (by decide) (by decide),
    claim_c7.2.2.2.2.2 "b".data "k".data "0:x".data "inputs".data
      (by decide) (by decide) (by decide) (by decide)⟩

/-- C3 (amended): for a container without `/`, a key without `#`,
non-negative offsets and any field name, decoding the encoded reference
recovers the container, key, start and end with `ok = true`; the field
name is required to be present (a `/` must follow the offsets) but its
text is not part of the decoder's output. -/
theorem claim_c3_amended (container key : List Char) (start stop : Nat) (field : List Char)
    (hc : '/' ∉ container) (hk : '#' ∉ key) :
    parseS3Ref (encodeRef container key start stop field)
      = ⟨container, key, (start : Int), (stop : Int), true⟩ :=
  parseS3Ref_encodeRef container key start stop field hc hk

/-- C3 counterexample: the decoder's output carries no field-name
component — two references identical except for the field name decode to
equal results (with `ok = true`), so decoding cannot recover the field. -/
theorem claim_c3_counterexample :
    parseS3Ref (encodeRef "b".data "k".data 0 2 "inputs".data)
      = parseS3Ref (encodeRef "b".data "k".data 0 2 "outputs".data)
    ∧ (parseS3Ref (encodeRef "b".data "k".data 0 2 "inputs".data)).ok = true
    ∧ "inputs".data ≠ "outputs".data := by
  refine ⟨by decide, by decide, by decide⟩

/-- Witness for claim C3's amended theorem at a concrete reference. -/
theorem claim_c3_witness :
    '/' ∉ "bucket".data ∧ '#' ∉ "batches/xyz.json".data
    ∧ parseS3Ref (encodeRef "bucket".data "batches/xyz.json".data 115 119 "inputs".data)
      = ⟨"bucket".data, "batches/xyz.json".data, (115 : Int), (119 : Int), true⟩ :=
  ⟨by decide, by decide,
    claim_c3_amended "bucket".data "batches/xyz.json".data 115 119 "inputs".data
      (by decide) (by decide)⟩

/-! ## UUIDs (model of `github.com/google/uuid` `Parse`, `String`, `New`) -/

/-- A UUID value: its sixteen bytes. -/
abbrev UUIDv := List Nat

/-- Hexadecimal digit value, accepting both cases (the `xtob` table of the
uuid library). -/
def hexVal (c : Char) : Option Nat :=
  if '0' ≤ c ∧ c ≤ '9' then some (c.toNat - '0'.toNat)
  else if 'a' ≤ c ∧ c ≤ 'f' then some (c.toNat - 'a'.toNat + 10)
  else if 'A' ≤ c ∧ c ≤ 'F' then some (c.toNat - 'A'.toNat + 10)
  else none

/-- Model of the uuid library's `xtob`: one byte from two hex digits. -/
def xtob (a b : Char) : Option Nat :=
  match hexVal a, hexVal b with
  | some x, some y => some (x * 16 + y)
  | _, _ => none

/-- Read the bytes whose hex pairs sit at the given character positions. -/
def hexPairsAt (s : List Char) (positions : List Nat) : Option (List Nat) :=
  positions.mapM (fun i =>
    match s[i]?, s[i + 1]? with
    | some a, some b => xtob a b
    | _, _ => none)

/-- Byte positions of the sixteen hex pairs in the canonical 36-character
form `xxxxxxxx-xxxx-xxxx-xxxx-xxxxxxxxxxxx`. -/
def canonicalPositions : List Nat :=
  [0, 2, 4, 6, 9, 11, 14, 16, 19, 21, 24, 26, 28, 30, 32, 34]

/-- Parse the canonical 36-character layout: hyphens at positions 8, 13,
18 and 23, hex pairs elsewhere. -/
def uuidParseCanonical (s : List Char) : Option UUIDv :=
  if s[8]? = some '-' ∧ s[13]? = some '-' ∧ s[18]? = some '-' ∧ s[23]? = some '-' then
    hexPairsAt s canonicalPositions
  else none

/-- ASCII lower-casing (enough for the `urn:uuid:` prefix comparison). -/
def asciiToLower (c : Char) : Char :=
  if 'A' ≤ c ∧ c ≤ 'Z' then Char.ofNat (c.toNat + 32) else c

/-- Model of Go `strings.EqualFold` restricted to ASCII (its only use here
compares against the ASCII literal `urn:uuid:`). -/
def equalFold (a b : List Char) : Bool :=
  a.map asciiToLower = b.map asciiToLower

/-- Model of `uuid.Parse`: accepts the canonical 36-character form, the
45-character `urn:uuid:` form, the 38-character surrounded form (the
library slices off the first character and ignores the last without
checking that they are braces), and the plain 32-hex-digit form. -/
def uuidParse (s : List Char) : Option UUIDv :=
  match s.length with
  | 36 => uuidParseCanonical s
  | 45 =>
    if equalFold (s.take 9) "urn:uuid:".data then uuidParseCanonical (s.drop 9) else none
  | 38 => uuidParseCanonical (s.drop 1)
  | 32 => hexPairsAt s [0, 2, 4, 6, 8, 10, 12, 14, 16, 18, 20, 22, 24, 26, 28, 30]
  | _ => none

/-- Lower-case hex digit for a nibble. -/
def hexDigit (d : Nat) : Char :=
  if d < 10 then digitChar d else Char.ofNat ('a'.toNat + (d - 10))

/-- Two lower-case hex digits for one byte. -/
def byteHex (b : Nat) : List Char := [hexDigit (b / 16 % 16), hexDigit (b % 16)]

/-- Hex rendering of a byte list. -/
def hexPairs (l : List Nat) : List Char := l.foldr (fun b acc => byteHex b ++ acc) []

/-- Model of `uuid.UUID.String`: canonical lower-case
`xxxxxxxx-xxxx-xxxx-xxxx-xxxxxxxxxxxx` rendering. -/
def uuidString (u : UUIDv) : List Char :=
  hexPairs (u.take 4) ++ '-' :: (hexPairs ((u.drop 4).take 2) ++ '-' ::
    (hexPairs ((u.drop 6).take 2) ++ '-' :: (hexPairs ((u.drop 8).take 2) ++ '-' ::
      hexPairs (u.drop 10))))

/-! ## Syntactic JSON validity

A grammar for JSON texts over byte lists, used to state that payload
fields and the byte ranges sliced back out of the blob are syntactically
valid JSON. -/

/-- JSON insignificant whitespace characters. -/
def isJsonWs (c : Char) : Bool := c = ' ' ∨ c = '\t' ∨ c = '\n' ∨ c = '\r'

/-- A (possibly empty) run of JSON whitespace. -/
def JWs (s : List Char) : Prop := ∀ c ∈ s, isJsonWs c = true

/-- ASCII decimal digit test. -/
def isDigitCh (c : Char) : Bool := '0' ≤ c ∧ c ≤ '9'

/-- One or more decimal digits. -/
def JDigits (s : List Char) : Prop := s ≠ [] ∧ ∀ c ∈ s, isDigitCh c = true

/-- The integer part of a JSON number: `0`, or a nonzero digit followed
by digits. -/
def JIntPart (s : List Char) : Prop :=
  s = ['0'] ∨ ∃ c d, isDigitCh c = true ∧ c ≠ '0' ∧ (∀ x ∈ d, isDigitCh x = true) ∧ s = c :: d

/-- A JSON number: optional minus, integer part, optional fraction,
optional exponent. -/
def JNum (s : List Char) : Prop :=
  ∃ sign i f ex, s = sign ++ i ++ f ++ ex
    ∧ (sign = [] ∨ sign = ['-'])
    ∧ JIntPart i
    ∧ (f = [] ∨ ∃ d, JDigits d ∧ f = '.' :: d)
    ∧ (ex = [] ∨ ∃ ec sg d, (ec = 'e' ∨ ec = 'E')
        ∧ (sg = [] ∨ sg = ['+'] ∨ sg = ['-']) ∧ JDigits d ∧ ex = ec :: (sg ++ d))

/-- Hexadecimal digit test (for string `\u` escapes). -/
def isHexCh (c : Char) : Bool :=
  ('0' ≤ c ∧ c ≤ '9') ∨ ('a' ≤ c ∧ c ≤ 'f') ∨ ('A' ≤ c ∧ c ≤ 'F')

/-- The single characters allowed after a backslash in a JSON string. -/
def jsonEscapes : List Char := ['"', '\\', '/', 'b', 'f', 'n', 'r', 't']

/-- The body of a JSON string literal: unescaped characters other than a
quote or backslash, two-character escapes, and `\u` hex escapes. -/
inductive JStrBody : List Char → Prop where
  | nil : JStrBody []
  | raw {c s} : c ≠ '"' → c ≠ '\\' → JStrBody s → JStrBody (c :: s)
  | esc {c s} : c ∈ jsonEscapes → JStrBody s → JStrBody ('\\' :: c :: s)
  | escU {a b c d s} : isHexCh a = true → isHexCh b = true → isHexCh c = true →
      isHexCh d = true → JStrBody s → JStrBody ('\\' :: 'u' :: a :: b :: c :: d :: s)

/-- A JSON string literal. -/
def JStr (s : List Char) : Prop := ∃ body, JStrBody body ∧ s = '"' :: (body ++ ['"'])

mutual

/-- A JSON value (no surrounding whitespace). -/
inductive JValue : List Char → Prop where
  | null : JValue "null".data
  | tru : JValue "true".data
  | fls : JValue "false".data
  | str {s} : JStr s → JValue s
  | num {s} : JNum s → JValue s
  | arrEmpty {w} : JWs w → JValue ('[' :: (w ++ [']']))
  | arr {s} : JElems s → JValue ('[' :: (s ++ [']']))
  | objEmpty {w} : JWs w → JValue (lbrace :: (w ++ [rbrace]))
  | obj {s} : JMembers s → JValue (lbrace :: (s ++ [rbrace]))

/-- One or more comma-separated, whitespace-padded array elements. -/
inductive JElems : List Char → Prop where
  | single {w1 v w2} : JWs w1 → JValue v → JWs w2 → JElems (w1 ++ (v ++ w2))
  | cons {w1 v w2 rest} : JWs w1 → JValue v → JWs w2 → JElems rest →
      JElems (w1 ++ (v ++ (w2 ++ ',' :: rest)))

/-- One or more comma-separated object members (`"key" : value`). -/
inductive JMembers : List Char → Prop where
  | single {w1 k w2 w3 v w4} : JWs w1 → JStr k → JWs w2 → JWs w3 → JValue v → JWs w4 →
      JMembers (w1 ++ (k ++ (w2 ++ ':' :: (w3 ++ (v ++ w4)))))
  | cons {w1 k w2 w3 v w4 rest} : JWs w1 → JStr k → JWs w2 → JWs w3 → JValue v → JWs w4 →
      JMembers rest →
      JMembers (w1 ++ (k ++ (w2 ++ ':' :: (w3 ++ (v ++ (w4 ++ ',' :: rest))))))

end

/-- A syntactically valid JSON text: a value with optional surrounding
whitespace. -/
def ValidJson (s : List Char) : Prop :=
  ∃ w1 v w2, s = w1 ++ (v ++ w2) ∧ JWs w1 ∧ JValue v ∧ JWs w2

theorem validJson_emptyObj : ValidJson emptyObj := by
  refine ⟨[], emptyObj, [], by simp, ?_, ?_, ?_⟩
  · intro c hc; cases hc
  · have h : emptyObj = lbrace :: (([] : List Char) ++ [rbrace]) := rfl
    rw [h]
    exact JValue.objEmpty (fun c hc => by cases hc)
  · intro c hc; cases hc

/-! ## The batch encoder (`createRunsHandler`, lines 159-241)

One record of the decoded request body (`runJSON`): the payload fields
hold the raw bytes the JSON decoder stored into the `json.RawMessage`
(empty for an absent field, the four bytes `null` for an explicit JSON
null, otherwise the field's value bytes). -/
structure RunJSON where
  id : Option (List Char)
  traceID : List Char
  name : List Char
  inputs : List Char
  outputs : List Char
  metadata : List Char
  deriving DecidableEq, Repr

/-- How the upstream JSON decoder fills a `json.RawMessage` payload
field: an absent field leaves the slice empty, an explicit `null` stores
the literal four bytes, and any other value stores its raw bytes. -/
inductive FieldInput where
  | absent
  | nullLit
  | value (bytes : List Char)
  deriving DecidableEq, Repr

/-- The raw bytes a `FieldInput` leaves in the decoded `json.RawMessage`. -/
def rawMessageOf : FieldInput → List Char
  | .absent => []
  | .nullLit => "null".data
  | .value b => b

/-- The three payload fields. -/
inductive FieldName where
  | inputs
  | outputs
  | metadata
  deriving DecidableEq, Repr

/-- Payload bytes of one field of a record. -/
def payloadOf (r : RunJSON) : FieldName → List Char
  | .inputs => r.inputs
  | .outputs => r.outputs
  | .metadata => r.metadata

/-- The field-name tail of an encoded reference. -/
def fieldTag : FieldName → List Char
  | .inputs => "inputs".data
  | .outputs => "outputs".data
  | .metadata => "metadata".data

/-- What the encoder writes for a payload field: the raw bytes, or the
two-byte `\x7b\x7d` token when the `json.RawMessage` is empty
(`if len(...) == 0`). -/
def rawOrEmpty (raw : List Char) : List Char :=
  if raw = [] then emptyObj else raw

/-- One row of the `offs` slice (`runOffsets` in the Go source): the
assigned ids plus the three encoded references. -/
structure RunOffsets where
  id : UUIDv
  traceID : UUIDv
  name : List Char
  inputsRef : List Char
  outputsRef : List Char
  metadataRef : List Char
  deriving DecidableEq, Repr

/-- The stored reference of one field of a row. -/
def refOf (o : RunOffsets) : FieldName → List Char
  | .inputs => o.inputsRef
  | .outputs => o.outputsRef
  | .metadata => o.metadataRef

/-- The two client-error cases of the validation loop. -/
inductive CreateError where
  | invalidId (i : Nat)
  | invalidTraceId (i : Nat)
  deriving DecidableEq, Repr

/-- The `fmt.Sprintf` error messages of the validation loop. -/
def createErrorMsg : CreateError → List Char
  | .invalidId i => "invalid id at index ".data ++ natDigits i
  | .invalidTraceId i => "invalid trace_id at index ".data ++ natDigits i

/-- Escaping of one character inside a quoted Go string (the common ASCII
cases of `strconv.AppendQuote`, which the handler uses for `name`; the
same function stands in for `json.Marshal` of the name on the read path —
the claims never depend on the exact escape table). -/
def escapeChar (c : Char) : List Char :=
  if c = '"' then ['\\', '"']
  else if c = '\\' then ['\\', '\\']
  else if c = '\n' then ['\\', 'n']
  else if c = '\t' then ['\\', 't']
  else if c = '\r' then ['\\', 'r']
  else [c]

/-- Model of Go `strconv.AppendQuote`: a double-quoted, escaped string. -/
def goQuote (s : List Char) : List Char :=
  '"' :: (s.foldr (fun c acc => escapeChar c ++ acc) [] ++ ['"'])

/-- Identifier assignment for one record (`in.ID != nil && *in.ID != ""`
parses the supplied id, anything else generates a fresh one). The fresh
value comes from the oracle `gen` at the record's position, modelling
`uuid.New()`. -/
def assignId (gen : Nat → UUIDv) (i : Nat) (r : RunJSON) : Except CreateError UUIDv :=
  match r.id with
  | some s =>
    if s = [] then .ok (gen i)
    else
      match uuidParse s with
      | some u => .ok u
      | none => .error (.invalidId i)
  | none => .ok (gen i)

/-- The bytes written for one record before its `inputs` payload: the
separating comma (for every record after the first), the literal id,
trace id and quoted name parts, and the `"inputs":` key. -/
def recordHead (i : Nat) (id tid : UUIDv) (name : List Char) : List Char :=
  (if 0 < i then [','] else []) ++ (lbrace :: ("\"id\":\"".data ++ (uuidString id ++
    ("\",\"trace_id\":\"".data ++ (uuidString tid ++ ("\",\"name\":".data ++
      (goQuote name ++ ",\"inputs\":".data)))))))

/-- The literal `,"outputs":` key. -/
def midOut : List Char := ",\"outputs\":".data

/-- The literal `,"metadata":` key. -/
def midMeta : List Char := ",\"metadata\":".data

/-- All bytes one record contributes to the batch buffer. -/
def recordChunk (i : Nat) (id tid : UUIDv) (r : RunJSON) : List Char :=
  recordHead i id tid r.name ++ (rawOrEmpty r.inputs ++ (midOut ++
    (rawOrEmpty r.outputs ++ (midMeta ++ (rawOrEmpty r.metadata ++ [rbrace])))))

/-- The `runOffsets` row for one record: each `start` is `buf.Len()` just
before the field bytes are written and each `end` is `buf.Len()` just
after, with `base` the buffer length when the record begins. -/
def recordOffsets (bucket objectKey : List Char) (i : Nat) (id tid : UUIDv)
    (r : RunJSON) (base : Nat) : RunOffsets :=
  let inputsStart := base + (recordHead i id tid r.name).length
  let inputsEnd := inputsStart + (rawOrEmpty r.inputs).length
  let outputsStart := inputsEnd + midOut.length
  let outputsEnd := outputsStart + (rawOrEmpty r.outputs).length
  let metadataStart := outputsEnd + midMeta.length
  let metadataEnd := metadataStart + (rawOrEmpty r.metadata).length
  { id := id, traceID := tid, name := r.name,
    inputsRef := encodeRef bucket objectKey inputsStart inputsEnd "inputs".data,
    outputsRef := encodeRef bucket objectKey outputsStart outputsEnd "outputs".data,
    metadataRef := encodeRef bucket objectKey metadataStart metadataEnd "metadata".data }

/-- The validation-and-encoding loop over the records (`for i, in := range
runs`): validates ids, appends each record's bytes to the buffer and its
row to `offs`, aborting the whole batch on the first invalid identifier. -/
def encodeLoop (bucket objectKey : List Char) (gen : Nat → UUIDv) :
    List RunJSON → Nat → List Char → List RunOffsets →
    Except CreateError (List Char × List RunOffsets)
  | [], _, buf, offs => .ok (buf, offs)
  | r :: rest, i, buf, offs =>
    match assignId gen i r with
    | .error e => .error e
    | .ok id =>
      match uuidParse r.traceID with
      | none => .error (.invalidTraceId i)
      | some tid =>
        encodeLoop bucket objectKey gen rest (i + 1) (buf ++ recordChunk i id tid r)
          (offs ++ [recordOffsets bucket objectKey i id tid r buf.length])

/-- The whole batch encoding: `[`, the records, `]`. -/
def encodeBatch (bucket objectKey : List Char) (gen : Nat → UUIDv) (runs : List RunJSON) :
    Except CreateError (List Char × List RunOffsets) :=
  match encodeLoop bucket objectKey gen runs 0 ['['] [] with
  | .error e => .error e
  | .ok (buf, offs) => .ok (buf ++ [']'], offs)

theorem slice_at (a F X : List Char) (s e : Nat) (hs : s = a.length) (he : e = s + F.length) :
    byteSlice (a ++ (F ++ X)) s e = F ∧ e ≤ (a ++ (F ++ X)).length := by
  subst hs
  subst he
  refine ⟨slice_exact a F X, ?_⟩
  simp [List.length_append]

theorem encodeLoop_ok_spec (bucket objectKey : List Char) (gen : Nat → UUIDv) :
    ∀ (rest : List RunJSON) (i : Nat) (buf : List Char) (offs : List RunOffsets)
      (B : List Char) (O : List RunOffsets),
    encodeLoop bucket objectKey gen rest i buf offs = .ok (B, O) →
    ∃ newOffs t, O = offs ++ newOffs ∧ B = buf ++ t ∧ newOffs.length = rest.length ∧
      ∀ j r, rest[j]? = some r → ∃ o, newOffs[j]? = some o ∧
        assignId gen (i + j) r = .ok o.id ∧
        uuidParse r.traceID = some o.traceID ∧ o.name = r.name ∧
        ∀ k : FieldName, ∃ s e,
          refOf o k = encodeRef bucket objectKey s e (fieldTag k) ∧
          e = s + (rawOrEmpty (payloadOf r k)).length ∧
          e ≤ B.length ∧
          byteSlice B s e = rawOrEmpty (payloadOf r k) := by
  intro rest
  induction rest with
  | nil =>
    intro i buf offs B O h
    simp only [encodeLoop, Except.ok.injEq, Prod.mk.injEq] at h
    refine ⟨[], [], by simp [← h.2], by simp [← h.1], rfl, ?_⟩
    intro j r hj
    simp at hj
  | cons r rest ih =>
    intro i buf offs B O h
    simp only [encodeLoop] at h
    cases hai : assignId gen i r with
    | error e => rw [hai] at h; cases h
    | ok id =>
      rw [hai] at h
      cases htid : uuidParse r.traceID with
      | none => rw [htid] at h; cases h
      | some tid =>
        rw [htid] at h
        obtain ⟨newOffs, t, hO, hB, hlen, hrec⟩ := ih (i + 1) _ _ B O h
        refine ⟨recordOffsets bucket objectKey i id tid r buf.length :: newOffs,
          recordChunk i id tid r ++ t, by simp [hO], by simp [hB], by simp [hlen], ?_⟩
        intro j rj hj
        cases j with
        | zero =>
          simp only [List.getElem?_cons_zero, Option.some.injEq] at hj
          subst hj
          refine ⟨recordOffsets bucket objectKey i id tid r buf.length, by simp,
            by simpa [recordOffsets] using hai, by simpa [recordOffsets] using htid,
            by simp [recordOffsets], ?_⟩
          intro k
          have hBshape : ∀ a F X : List Char, B = a ++ (F ++ X) →
              ∀ s e : Nat, s = a.length → e = s + F.length →
              byteSlice B s e = F ∧ e ≤ B.length := by
            intro a F X hBe s e hs he
            rw [hBe]
            exact slice_at a F X s e hs he
          cases k with
          | inputs =>
            have hd := hBshape (buf ++ recordHead i id tid r.name) (rawOrEmpty r.inputs)
              (midOut ++ (rawOrEmpty r.outputs ++ (midMeta ++ (rawOrEmpty r.metadata ++ [rbrace]))) ++ t)
              (by rw [hB]; simp [recordChunk])
              (buf.length + (recordHead i id tid r.name).length)
              (buf.length + (recordHead i id tid r.name).length + (rawOrEmpty r.inputs).length)
              (by simp) rfl
            exact ⟨buf.length + (recordHead i id tid r.name).length,
              buf.length + (recordHead i id tid r.name).length + (rawOrEmpty r.inputs).length,
              by simp [recordOffsets, refOf, fieldTag], rfl, hd.2, hd.1⟩
          | outputs =>
            have hd := hBshape
              (buf ++ (recordHead i id tid r.name ++ (rawOrEmpty r.inputs ++ midOut)))
              (rawOrEmpty r.outputs)
              (midMeta ++ (rawOrEmpty r.metadata ++ [rbrace]) ++ t)
              (by rw [hB]; simp [recordChunk])
              (buf.length + (recordHead i id tid r.name).length + (rawOrEmpty r.inputs).length
                + midOut.length)
              (buf.length + (recordHead i id tid r.name).length + (rawOrEmpty r.inputs).length
                + midOut.length + (rawOrEmpty r.outputs).length)
              (by simp [List.length_append]; omega) rfl
            exact ⟨buf.length + (recordHead i id tid r.name).length + (rawOrEmpty r.inputs).length
                + midOut.length,
              buf.length + (recordHead i id tid r.name).length + (rawOrEmpty r.inputs).length
                + midOut.length + (rawOrEmpty r.outputs).length,
              by simp [recordOffsets, refOf, fieldTag], rfl, hd.2, hd.1⟩
          | metadata =>
            have hd := hBshape
              (buf ++ (recordHead i id tid r.name ++ (rawOrEmpty r.inputs ++ (midOut ++
                (rawOrEmpty r.outputs ++ midMeta)))))
              (rawOrEmpty r.metadata)
              ([rbrace] ++ t)
              (by rw [hB]; simp [recordChunk])
              (buf.length + (recordHead i id tid r.name).length + (rawOrEmpty r.inputs).length
                + midOut.length + (rawOrEmpty r.outputs).length + midMeta.length)
              (buf.length + (recordHead i id tid r.name).length + (rawOrEmpty r.inputs).length
                + midOut.length + (rawOrEmpty r.outputs).length + midMeta.length
                + (rawOrEmpty r.metadata).length)
              (by simp [List.length_append]; omega) rfl
            exact ⟨buf.length + (recordHead i id tid r.name).length + (rawOrEmpty r.inputs).length
                + midOut.length + (rawOrEmpty r.outputs).length + midMeta.length,
              buf.length + (recordHead i id tid r.name).length + (rawOrEmpty r.inputs).length
                + midOut.length + (rawOrEmpty r.outputs).length + midMeta.length
                + (rawOrEmpty r.metadata).length,
              by simp [recordOffsets, refOf, fieldTag], rfl, hd.2, hd.1⟩
        | succ j =>
          simp only [List.getElem?_cons_succ] at hj ⊢
          obtain ⟨o, ho, hid, htr, hnm, hf⟩ := hrec j rj hj
          refine ⟨o, ho, ?_, htr, hnm, hf⟩
          have harith : i + 1 + j = i + (j + 1) := by omega
          rw [← harith]
          exact hid

/-- A record that passes the validation loop: the supplied id (when
present and non-empty) parses, and the trace id parses. -/
def validRun (r : RunJSON) : Bool :=
  (match r.id with
   | some s => s = [] || (uuidParse s).isSome
   | none => true)
  && (uuidParse r.traceID).isSome

theorem assignId_ok_of_valid (gen : Nat → UUIDv) (i : Nat) {r : RunJSON}
    (h : validRun r = true) : ∃ u, assignId gen i r = .ok u := by
  cases hid : r.id with
  | none => exact ⟨gen i, by simp [assignId, hid]⟩
  | some s =>
    simp only [validRun, hid, Bool.and_eq_true, Bool.or_eq_true] at h
    by_cases hs : s = []
    · exact ⟨gen i, by simp [assignId, hid, hs]⟩
    · have hsome : (uuidParse s).isSome = true := by
        rcases h.1 with h1 | h1
        · exact absurd (by simpa using h1) hs
        · exact h1
      obtain ⟨u, hu⟩ := Option.isSome_iff_exists.mp hsome
      exact ⟨u, by simp [assignId, hid, hs, hu]⟩

theorem traceId_ok_of_valid {r : RunJSON} (h : validRun r = true) :
    ∃ u, uuidParse r.traceID = some u := by
  unfold validRun at h
  rw [Bool.and_eq_true] at h
  exact Option.isSome_iff_exists.mp h.2

theorem isSome_false_eq_none {α : Type} {o : Option α} (h : o.isSome = false) : o = none := by
  cases o with
  | none => rfl
  | some v => simp at h

theorem assignId_cases_of_invalid (gen : Nat → UUIDv) (i : Nat) {r : RunJSON}
    (h : validRun r = false) :
    assignId gen i r = .error (.invalidId i)
    ∨ ((∃ u, assignId gen i r = .ok u) ∧ uuidParse r.traceID = none) := by
  cases hid : r.id with
  | none =>
    simp only [validRun, hid, Bool.true_and] at h
    exact Or.inr ⟨⟨gen i, by simp [assignId, hid]⟩, isSome_false_eq_none h⟩
  | some s =>
    simp only [validRun, hid, Bool.and_eq_false_iff, Bool.or_eq_false_iff] at h
    rcases h with ⟨h1, h2⟩ | h
    · have hs : ¬s = [] := by simpa using h1
      exact Or.inl (by simp [assignId, hid, hs, isSome_false_eq_none h2])
    · by_cases hs : s = []
      · exact Or.inr ⟨⟨gen i, by simp [assignId, hid, hs]⟩, isSome_false_eq_none h⟩
      · rcases hps : uuidParse s with _ | u
        · exact Or.inl (by simp [assignId, hid, hs, hps])
        · exact Or.inr ⟨⟨u, by simp [assignId, hid, hs, hps]⟩, isSome_false_eq_none h⟩

theorem encodeLoop_ok_of_valid (bucket objectKey : List Char) (gen : Nat → UUIDv) :
    ∀ (rest : List RunJSON) (i : Nat) (buf : List Char) (offs : List RunOffsets),
    (∀ r ∈ rest, validRun r = true) →
    ∃ B O, encodeLoop bucket objectKey gen rest i buf offs = .ok (B, O) := by
  intro rest
  induction rest with
  | nil => intro i buf offs _; exact ⟨buf, offs, rfl⟩
  | cons r rest ih =>
    intro i buf offs hv
    have hr : validRun r = true := hv r (List.mem_cons_self r rest)
    obtain ⟨u, hu⟩ := assignId_ok_of_valid gen i hr
    obtain ⟨tid, htid⟩ := traceId_ok_of_valid hr
    obtain ⟨B, O, hBO⟩ := ih (i + 1) (buf ++ recordChunk i u tid r)
      (offs ++ [recordOffsets bucket objectKey i u tid r buf.length])
      (fun r hm => hv r (List.mem_cons_of_mem _ hm))
    refine ⟨B, O, ?_⟩
    simp only [encodeLoop, hu, htid]
    exact hBO

theorem encodeLoop_error_spec (bucket objectKey : List Char) (gen : Nat → UUIDv) :
    ∀ (rest : List RunJSON) (i : Nat) (buf : List Char) (offs : List RunOffsets)
      (N : Nat) (r : RunJSON),
    rest[N]? = some r →
    (∀ j rj, j < N → rest[j]? = some rj → validRun rj = true) →
    validRun r = false →
    encodeLoop bucket objectKey gen rest i buf offs = .error (.invalidId (i + N))
    ∨ encodeLoop bucket objectKey gen rest i buf offs = .error (.invalidTraceId (i + N)) := by
  intro rest
  induction rest with
  | nil => intro i buf offs N r hN; simp at hN
  | cons r0 rest ih =>
    intro i buf offs N r hN hbefore hbad
    cases N with
    | zero =>
      simp only [List.getElem?_cons_zero, Option.some.injEq] at hN
      subst hN
      rcases assignId_cases_of_invalid gen i hbad with hcase | ⟨⟨u, hu⟩, htid⟩
      · left
        simp only [encodeLoop, hcase, Nat.add_zero]
      · right
        simp only [encodeLoop, hu, htid, Nat.add_zero]
    | succ N =>
      simp only [List.getElem?_cons_succ] at hN
      have hr0 : validRun r0 = true :=
        hbefore 0 r0 (Nat.succ_pos N) (by simp)
      obtain ⟨u, hu⟩ := assignId_ok_of_valid gen i hr0
      obtain ⟨tid, htid⟩ := traceId_ok_of_valid hr0
      have hbefore2 : ∀ j rj, j < N → rest[j]? = some rj → validRun rj = true := by
        intro j rj hj hget
        exact hbefore (j + 1) rj (by omega) (by simpa using hget)
      have harith : i + 1 + N = i + (N + 1) := by omega
      rcases ih (i + 1) (buf ++ recordChunk i u tid r0)
          (offs ++ [recordOffsets bucket objectKey i u tid r0 buf.length]) N r hN hbefore2 hbad
        with hres | hres
      · left
        simp only [encodeLoop, hu, htid]
        rw [← harith]
        exact hres
      · right
        simp only [encodeLoop, hu, htid]
        rw [← harith]
        exact hres

/-! ## The write coordinator (`createRunsHandler`, lines 245-323) -/

/-- The handler's response (status plus JSON body content). -/
inductive HttpResponse where
  | badRequest (msg : List Char)
  | serverErr (msg : List Char)
  | created (runIds : List (List Char))
  deriving DecidableEq, Repr

/-- Externally observable outcome of one write request: the response,
whether the blob upload and the index insert were started, and what was
handed to them. -/
structure CreateOutcome where
  response : HttpResponse
  uploadAttempted : Bool
  insertAttempted : Bool
  blob : Option (List Char)
  rows : Option (List RunOffsets)
  deriving DecidableEq, Repr

/-- The error-collection loop over the shared channel (`for i := 0; i < 2`):
each non-nil error received is stored into `s3Err` if that is still nil,
otherwise into `dbErr` — regardless of which goroutine sent it. The two
arguments are the goroutine results in arrival order. -/
def recvErrors (first second : Option (List Char)) :
    Option (List Char) × Option (List Char) :=
  match first, second with
  | some e1, some e2 => (some e1, some e2)
  | some e1, none => (some e1, none)
  | none, some e2 => (some e2, none)
  | none, none => (none, none)

/-- The combined failure message: the `S3 upload failed: ... . ` part when
`s3Err` is set, then the `DB insert failed: ...` part when `dbErr` is. -/
def combinedErrorMsg (s3Err dbErr : Option (List Char)) : List Char :=
  (match s3Err with
   | some e => "S3 upload failed: ".data ++ (e ++ ". ".data)
   | none => []) ++
  (match dbErr with
   | some e => "DB insert failed: ".data ++ e
   | none => [])

/-- The join point of the two concurrent operations: collect both results
(in arrival order `s3First`), fail with the combined message if either is
an error, otherwise answer `created` with the ids taken from `offs` in
encoding order (`runIDs` is built from `offs`, not from store output). -/
def writeCoordinator (buf : List Char) (offs : List RunOffsets)
    (s3Outcome dbOutcome : Option (List Char)) (s3First : Bool) : CreateOutcome :=
  let ed := if s3First then recvErrors s3Outcome dbOutcome else recvErrors dbOutcome s3Outcome
  if ed.1.isSome || ed.2.isSome then
    ⟨.serverErr (combinedErrorMsg ed.1 ed.2), true, true, some buf, some offs⟩
  else
    ⟨.created (offs.map fun o => uuidString o.id), true, true, some buf, some offs⟩

/-- Model of `createRunsHandler`: reject an empty batch, validate and
encode (aborting with a client error and no side effects on failure),
then run the write coordinator. `batchUUID` models the generated batch id,
`gen` the per-record `uuid.New()` calls, `s3Outcome`/`dbOutcome` the
results of the two store calls (`none` = success) and `s3First` their
arrival order on the shared channel. -/
def createRunsHandler (bucket : List Char) (batchUUID : UUIDv) (gen : Nat → UUIDv)
    (s3Outcome dbOutcome : Option (List Char)) (s3First : Bool)
    (runs : List RunJSON) : CreateOutcome :=
  if runs.length = 0 then
    ⟨.badRequest "No runs provided".data, false, false, none, none⟩
  else
    match encodeBatch bucket ("batches/".data ++ (uuidString batchUUID ++ ".json".data))
        gen runs with
    | .error e => ⟨.badRequest (createErrorMsg e), false, false, none, none⟩
    | .ok (buf, offs) => writeCoordinator buf offs s3Outcome dbOutcome s3First

theorem writeCoordinator_failure_iff (buf : List Char) (offs : List RunOffsets)
    (s3Outcome dbOutcome : Option (List Char)) (s3First : Bool) :
    (∃ m, (writeCoordinator buf offs s3Outcome dbOutcome s3First).response = .serverErr m)
      ↔ (s3Outcome.isSome ∨ dbOutcome.isSome) := by
  cases s3First <;> cases s3Outcome <;> cases dbOutcome <;>
    simp [writeCoordinator, recvErrors, combinedErrorMsg]

theorem writeCoordinator_both_msgs (buf : List Char) (offs : List RunOffsets)
    (e1 e2 : List Char) (s3First : Bool) :
    ∃ m, (writeCoordinator buf offs (some e1) (some e2) s3First).response = .serverErr m
      ∧ (∃ a b, m = a ++ (e1 ++ b)) ∧ (∃ a b, m = a ++ (e2 ++ b)) := by
  cases s3First with
  | false =>
    refine ⟨combinedErrorMsg (some e2) (some e1), by simp [writeCoordinator, recvErrors], ?_, ?_⟩
    · exact ⟨("S3 upload failed: ".data ++ (e2 ++ ". ".data)) ++ "DB insert failed: ".data, [],
        by simp [combinedErrorMsg]⟩
    · exact ⟨"S3 upload failed: ".data, ". ".data ++ ("DB insert failed: ".data ++ e1),
        by simp [combinedErrorMsg]⟩
  | true =>
    refine ⟨combinedErrorMsg (some e1) (some e2), by simp [writeCoordinator, recvErrors], ?_, ?_⟩
    · exact ⟨"S3 upload failed: ".data, ". ".data ++ ("DB insert failed: ".data ++ e2),
        by simp [combinedErrorMsg]⟩
    · exact ⟨("S3 upload failed: ".data ++ (e1 ++ ". ".data)) ++ "DB insert failed: ".data, [],
        by simp [combinedErrorMsg]⟩

theorem mem_of_getElem?_list {α : Type} {l : List α} {i : Nat} {a : α}
    (h : l[i]? = some a) : a ∈ l := by
  induction l generalizing i with
  | nil => simp at h
  | cons x xs ih =>
    cases i with
    | zero =>
      simp only [List.getElem?_cons_zero, Option.some.injEq] at h
      exact h ▸ List.mem_cons_self x xs
    | succ j =>
      exact List.mem_cons_of_mem _ (ih (by simpa using h))

theorem encodeBatch_spec (bucket objectKey : List Char) (gen : Nat → UUIDv)
    (runs : List RunJSON) (B : List Char) (O : List RunOffsets)
    (henc : encodeBatch bucket objectKey gen runs = .ok (B, O)) :
    O.length = runs.length ∧
    ∀ (i : Nat) (r : RunJSON), runs[i]? = some r → ∃ o, O[i]? = some o ∧ ∀ k : FieldName,
      ∃ s e, refOf o k = encodeRef bucket objectKey s e (fieldTag k)
        ∧ e = s + (rawOrEmpty (payloadOf r k)).length
        ∧ e ≤ B.length
        ∧ byteSlice B s e = rawOrEmpty (payloadOf r k) := by
  unfold encodeBatch at henc
  cases hloop : encodeLoop bucket objectKey gen runs 0 ['['] [] with
  | error e => rw [hloop] at henc; cases henc
  | ok p =>
    obtain ⟨B0, O0⟩ := p
    rw [hloop] at henc
    simp only [Except.ok.injEq, Prod.mk.injEq] at henc
    obtain ⟨hB, hO⟩ := henc
    subst hB
    subst hO
    obtain ⟨newOffs, t, hO0, hB0, hlen, hrec⟩ :=
      encodeLoop_ok_spec bucket objectKey gen runs 0 ['['] [] B0 O0 hloop
    refine ⟨by rw [hO0]; simpa using hlen, ?_⟩
    intro i r hi
    obtain ⟨o, ho, _, _, _, hf⟩ := hrec i r hi
    have hoO : O0[i]? = some o := by rw [hO0]; simpa using ho
    refine ⟨o, hoO, ?_⟩
    intro k
    obtain ⟨s, e, href, he, hle, hsl⟩ := hf k
    have hslB : byteSlice (B0 ++ [']']) s e = rawOrEmpty (payloadOf r k) := by
      rw [slice_append_of_le B0 [']'] s e (by omega) hle]
      exact hsl
    exact ⟨s, e, href, he, by simp [List.length_append]; omega, hslB⟩

/-- C1: for every batch whose payload fields are each absent/empty or
syntactically valid JSON and which encodes successfully, every record's
every field has a byte interval `[start, stop)` recorded (inside its
stored reference) such that slicing the final blob over it yields exactly
the field's serialized form — the raw field bytes, or the two-byte empty
object token when the field is empty — and that slice is syntactically
valid JSON. -/
theorem claim_c1 (bucket objectKey : List Char) (gen : Nat → UUIDv) (runs : List RunJSON)
    (B : List Char) (O : List RunOffsets)
    (hvalid : ∀ r ∈ runs, ∀ k : FieldName, payloadOf r k = [] ∨ ValidJson (payloadOf r k))
    (henc : encodeBatch bucket objectKey gen runs = .ok (B, O)) :
    ∀ (i : Nat) (r : RunJSON), runs[i]? = some r → ∃ o, O[i]? = some o ∧ ∀ k : FieldName,
      ∃ s e, refOf o k = encodeRef bucket objectKey s e (fieldTag k)
        ∧ e = s + (rawOrEmpty (payloadOf r k)).length
        ∧ byteSlice B s e = rawOrEmpty (payloadOf r k)
        ∧ ValidJson (byteSlice B s e) := by
  intro i r hi
  obtain ⟨o, ho, hf⟩ := (encodeBatch_spec bucket objectKey gen runs B O henc).2 i r hi
  refine ⟨o, ho, ?_⟩
  intro k
  obtain ⟨s, e, href, he, _, hsl⟩ := hf k
  refine ⟨s, e, href, he, hsl, ?_⟩
  rw [hsl]
  by_cases hp : payloadOf r k = []
  · rw [hp]
    unfold rawOrEmpty
    rw [if_pos rfl]
    exact validJson_emptyObj
  · rw [rawOrEmpty, if_neg hp]
    rcases hvalid r (mem_of_getElem?_list hi) k with h | h
    · exact absurd h hp
    · exact h

/-- Concrete record used by several witnesses: no supplied id, a valid
trace id, `inputs` given, `outputs` and `metadata` absent. -/
def wRun : RunJSON :=
  { id := none, traceID := "00000000-0000-0000-0000-000000000000".data,
    name := "n".data, inputs := "[1,2]".data, outputs := [], metadata := [] }

/-- A deterministic stand-in for the `uuid.New()` oracle. -/
def wGen : Nat → UUIDv := fun i => List.replicate 15 0 ++ [i % 256]

theorem jws_nil : JWs [] := by
  intro c hc
  cases hc

theorem jvalue_digit_one : JValue ['1'] :=
  JValue.num ⟨[], ['1'], [], [], by simp, Or.inl rfl,
    Or.inr ⟨'1', [], by decide, by decide, by simp, rfl⟩, Or.inl rfl, Or.inl rfl⟩

theorem jvalue_digit_two : JValue ['2'] :=
  JValue.num ⟨[], ['2'], [], [], by simp, Or.inl rfl,
    Or.inr ⟨'2', [], by decide, by decide, by simp, rfl⟩, Or.inl rfl, Or.inl rfl⟩

theorem validJson_witness_array : ValidJson "[1,2]".data := by
  have h2 : JElems (([] : List Char) ++ (['2'] ++ [])) :=
    JElems.single jws_nil jvalue_digit_two jws_nil
  have h1 : JElems (([] : List Char) ++ (['1'] ++ ([] ++ ',' :: (([] : List Char) ++ (['2'] ++ []))))) :=
    JElems.cons jws_nil jvalue_digit_one jws_nil h2
  have hv : JValue ('[' :: ((['1'] ++ (',' :: ['2'])) ++ [']'])) := by
    have := JValue.arr h1
    simpa using this
  exact ⟨[], "[1,2]".data, [], by simp, jws_nil, by exact hv, jws_nil⟩

/-- Witness for claim C1 at a one-record batch. -/
theorem claim_c1_witness :
    ∃ B O o s e,
      encodeBatch "b".data "k".data wGen [wRun] = .ok (B, O)
      ∧ O[0]? = some o
      ∧ refOf o .inputs = encodeRef "b".data "k".data s e (fieldTag .inputs)
      ∧ e = s + (rawOrEmpty (payloadOf wRun .inputs)).length
      ∧ byteSlice B s e = rawOrEmpty (payloadOf wRun .inputs)
      ∧ ValidJson (byteSlice B s e) := by
  obtain ⟨B, O, hBO⟩ : ∃ B O, encodeBatch "b".data "k".data wGen [wRun] = .ok (B, O) :=
    ⟨_, _, rfl⟩
  have hvalid : ∀ r ∈ [wRun], ∀ k : FieldName,
      payloadOf r k = [] ∨ ValidJson (payloadOf r k) := by
    intro r hr k
    rcases List.mem_singleton.mp hr with rfl
    cases k with
    | inputs => exact Or.inr validJson_witness_array
    | outputs => exact Or.inl rfl
    | metadata => exact Or.inl rfl
  obtain ⟨o, ho, hf⟩ := claim_c1 "b".data "k".data wGen [wRun] B O hvalid hBO 0 wRun rfl
  obtain ⟨s, e, h1, h2, h3, h4⟩ := hf .inputs
  exact ⟨B, O, o, s, e, hBO, ho, h1, h2, h3, h4⟩

theorem createRunsHandler_reduces (bucket : List Char) (batchUUID : UUIDv) (gen : Nat → UUIDv)
    (s3Outcome dbOutcome : Option (List Char)) (s3First : Bool)
    (runs : List RunJSON) (B0 : List Char) (O0 : List RunOffsets)
    (hne : runs.length ≠ 0)
    (hloop : encodeLoop bucket ("batches/".data ++ (uuidString batchUUID ++ ".json".data))
        gen runs 0 ['['] [] = .ok (B0, O0)) :
    createRunsHandler bucket batchUUID gen s3Outcome dbOutcome s3First runs
      = writeCoordinator (B0 ++ [']']) O0 s3Outcome dbOutcome s3First := by
  unfold createRunsHandler encodeBatch
  rw [if_neg hne, hloop]

/-- C4: once the write path's two concurrent operations have completed,
the combined result is a failure exactly when at least one failed, and
when both fail the reported message contains both error descriptions,
for either arrival order of the two results. -/
theorem claim_c4 (bucket : List Char) (batchUUID : UUIDv) (gen : Nat → UUIDv)
    (s3Outcome dbOutcome : Option (List Char)) (s3First : Bool)
    (runs : List RunJSON) (hne : runs.length ≠ 0)
    (hvalid : ∀ r ∈ runs, validRun r = true) :
    ((∃ m, (createRunsHandler bucket batchUUID gen s3Outcome dbOutcome s3First runs).response
        = .serverErr m) ↔ (s3Outcome.isSome ∨ dbOutcome.isSome))
    ∧ (∀ e1 e2, s3Outcome = some e1 → dbOutcome = some e2 →
        ∃ m, (createRunsHandler bucket batchUUID gen s3Outcome dbOutcome s3First runs).response
            = .serverErr m ∧ (∃ a b, m = a ++ (e1 ++ b)) ∧ (∃ a b, m = a ++ (e2 ++ b))) := by
  obtain ⟨B0, O0, hloop⟩ := encodeLoop_ok_of_valid bucket
    ("batches/".data ++ (uuidString batchUUID ++ ".json".data)) gen runs 0 ['['] [] hvalid
  have hred := createRunsHandler_reduces bucket batchUUID gen s3Outcome dbOutcome s3First
    runs B0 O0 hne hloop
  rw [hred]
  constructor
  · exact writeCoordinator_failure_iff (B0 ++ [']']) O0 s3Outcome dbOutcome s3First
  · intro e1 e2 h1 h2
    subst h1
    subst h2
    exact writeCoordinator_both_msgs (B0 ++ [']']) O0 e1 e2 s3First

/-- Witness for claim C4: both operations fail, and the single error body
contains both descriptions. -/
theorem claim_c4_witness :
    ∃ m, (createRunsHandler "b".data (List.replicate 16 0) wGen
        (some "s3boom".data) (some "dbboom".data) true [wRun]).response = .serverErr m
      ∧ (∃ a b, m = a ++ ("s3boom".data ++ b)) ∧ (∃ a b, m = a ++ ("dbboom".data ++ b)) :=
  (claim_c4 "b".data (List.replicate 16 0) wGen
    (some "s3boom".data) (some "dbboom".data) true [wRun]
    (by decide) (by decide)).2 "s3boom".data "dbboom".data rfl rfl

/-- C5: a successful write returns exactly one identifier per submitted
record, in submission order: the i-th identifier is the rendering of the
id assigned to the i-th record (its parsed supplied id when one was given,
the generated one otherwise). The ids are taken from the encoder's `offs`
rows, never from index-store output (the bulk insert returns no rows). -/
theorem claim_c5 (bucket : List Char) (batchUUID : UUIDv) (gen : Nat → UUIDv)
    (s3First : Bool) (runs : List RunJSON) (hne : runs.length ≠ 0)
    (hvalid : ∀ r ∈ runs, validRun r = true) :
    ∃ ids, (createRunsHandler bucket batchUUID gen none none s3First runs).response = .created ids
      ∧ ids.length = runs.length
      ∧ ∀ (i : Nat) (r : RunJSON), runs[i]? = some r →
          ∃ u, assignId gen i r = .ok u ∧ ids[i]? = some (uuidString u) := by
  obtain ⟨B0, O0, hloop⟩ := encodeLoop_ok_of_valid bucket
    ("batches/".data ++ (uuidString batchUUID ++ ".json".data)) gen runs 0 ['['] [] hvalid
  have hred := createRunsHandler_reduces bucket batchUUID gen none none s3First
    runs B0 O0 hne hloop
  obtain ⟨newOffs, t, hO0, hB0, hlen, hrec⟩ := encodeLoop_ok_spec bucket
    ("batches/".data ++ (uuidString batchUUID ++ ".json".data)) gen runs 0 ['['] [] B0 O0 hloop
  refine ⟨O0.map fun o => uuidString o.id, ?_, ?_, ?_⟩
  · rw [hred]
    cases s3First <;> simp [writeCoordinator, recvErrors]
  · rw [List.length_map, hO0]
    simpa using hlen
  · intro i r hi
    obtain ⟨o, ho, hid, _, _, _⟩ := hrec i r hi
    refine ⟨o.id, by simpa using hid, ?_⟩
    rw [hO0]
    simp only [List.nil_append, List.getElem?_map, ho]
    rfl

/-- A second witness record with a caller-supplied id. -/
def wRunA : RunJSON :=
  { id := some "aaaaaaaa-aaaa-aaaa-aaaa-aaaaaaaaaaaa".data,
    traceID := "00000000-0000-0000-0000-000000000001".data,
    name := "A".data, inputs := [], outputs := [], metadata := [] }

/-- Witness for claim C5: a two-record batch (one supplied id, one
generated) returns both identifiers in submission order. -/
theorem claim_c5_witness :
    ∃ ids, (createRunsHandler "b".data (List.replicate 16 0) wGen none none true
        [wRunA, wRun]).response = .created ids
      ∧ ids.length = ([wRunA, wRun] : List RunJSON).length
      ∧ ∀ (i : Nat) (r : RunJSON), ([wRunA, wRun] : List RunJSON)[i]? = some r →
          ∃ u, assignId wGen i r = .ok u ∧ ids[i]? = some (uuidString u) :=
  claim_c5 "b".data (List.replicate 16 0) wGen true [wRunA, wRun] (by decide) (by decide)

/-- C6: if every record before index N validates and the record at index
N has an invalid non-empty supplied id or an invalid trace id, the write
endpoint answers a client error whose message names index N, and neither
the blob upload nor the index insert is started — no batch data reaches
either store. -/
theorem claim_c6 (bucket : List Char) (batchUUID : UUIDv) (gen : Nat → UUIDv)
    (s3Outcome dbOutcome : Option (List Char)) (s3First : Bool)
    (runs : List RunJSON) (N : Nat) (r : RunJSON)
    (hN : runs[N]? = some r)
    (hbefore : ∀ (j : Nat) (rj : RunJSON), j < N → runs[j]? = some rj → validRun rj = true)
    (hbad : validRun r = false) :
    ∃ msg, createRunsHandler bucket batchUUID gen s3Outcome dbOutcome s3First runs
        = ⟨.badRequest msg, false, false, none, none⟩
      ∧ (msg = "invalid id at index ".data ++ natDigits N
         ∨ msg = "invalid trace_id at index ".data ++ natDigits N) := by
  have hne : runs.length ≠ 0 := by
    intro hlen
    rw [List.length_eq_zero] at hlen
    subst hlen
    simp at hN
  rcases encodeLoop_error_spec bucket
      ("batches/".data ++ (uuidString batchUUID ++ ".json".data)) gen runs 0 ['['] [] N r
      hN hbefore hbad with herr | herr
  · refine ⟨"invalid id at index ".data ++ natDigits N, ?_, Or.inl rfl⟩
    unfold createRunsHandler encodeBatch
    rw [if_neg hne, herr]
    simp [createErrorMsg]
  · refine ⟨"invalid trace_id at index ".data ++ natDigits N, ?_, Or.inr rfl⟩
    unfold createRunsHandler encodeBatch
    rw [if_neg hne, herr]
    simp [createErrorMsg]

/-- A record whose trace id is not a valid identifier. -/
def wRunBad : RunJSON :=
  { id := none, traceID := "not-a-uuid".data,
    name := "B".data, inputs := [], outputs := [], metadata := [] }

/-- Witness for claim C6: a batch whose second record has a malformed
trace id is rejected with a message naming index 1 and no store calls. -/
theorem claim_c6_witness :
    ∃ msg, createRunsHandler "b".data (List.replicate 16 0) wGen none none true [wRun, wRunBad]
        = ⟨.badRequest msg, false, false, none, none⟩
      ∧ (msg = "invalid id at index ".data ++ natDigits 1
         ∨ msg = "invalid trace_id at index ".data ++ natDigits 1) := by
  refine claim_c6 "b".data (List.replicate 16 0) wGen none none true [wRun, wRunBad] 1 wRunBad
    (by decide) ?_ (by decide)
  intro j rj hj hget
  interval_cases j
  simp only [List.getElem?_cons_zero, Option.some.injEq] at hget
  subst hget
  decide

theorem encodeLoop_id_empty_congr (bucket objectKey : List Char) (gen : Nat → UUIDv)
    (r : RunJSON) :
    ∀ (pre post : List RunJSON) (i : Nat) (buf : List Char) (offs : List RunOffsets),
    encodeLoop bucket objectKey gen (pre ++ { r with id := some [] } :: post) i buf offs
    = encodeLoop bucket objectKey gen (pre ++ { r with id := none } :: post) i buf offs := by
  intro pre
  induction pre with
  | nil =>
    intro post i buf offs
    simp only [List.nil_append, encodeLoop]
    have h1 : assignId gen i { r with id := some [] } = .ok (gen i) := by simp [assignId]
    have h2 : assignId gen i { r with id := none } = .ok (gen i) := by simp [assignId]
    rw [h1, h2]
    rfl
  | cons p pre ih =>
    intro post i buf offs
    cases hap : assignId gen i p with
    | error e => simp only [List.cons_append, encodeLoop, hap]
    | ok u =>
      cases htp : uuidParse p.traceID with
      | none => simp only [List.cons_append, encodeLoop, hap, htp]
      | some tid =>
        simp only [List.cons_append, encodeLoop, hap, htp]
        exact ih post (i + 1) _ _

/-- C10: a record whose supplied id is present but empty is handled
exactly like a record with no id at all — the whole write request gives
the identical outcome — and a fresh identifier is generated for it. -/
theorem claim_c10 (bucket : List Char) (batchUUID : UUIDv) (gen : Nat → UUIDv)
    (s3Outcome dbOutcome : Option (List Char)) (s3First : Bool)
    (pre post : List RunJSON) (r : RunJSON) :
    createRunsHandler bucket batchUUID gen s3Outcome dbOutcome s3First
        (pre ++ { r with id := some [] } :: post)
      = createRunsHandler bucket batchUUID gen s3Outcome dbOutcome s3First
        (pre ++ { r with id := none } :: post)
    ∧ ∀ i : Nat, assignId gen i { r with id := some [] } = .ok (gen i) := by
  constructor
  · unfold createRunsHandler encodeBatch
    rw [encodeLoop_id_empty_congr]
    have hlen : (pre ++ { r with id := some [] } :: post).length
        = (pre ++ { r with id := none } :: post).length := by simp
    rw [hlen]
  · intro i
    simp [assignId]

/-! ## The read path (`getRunHandler`, `writeField`, `openS3RangePipe`) -/

/-- Outcome of one ranged fetch as observed through the pipe: the bytes
the stream delivered to the reader before terminating, and whether it
terminated with an error (a `GetObject` failure delivers nothing and
fails; a mid-copy error fails after delivering a prefix). -/
structure FetchResult where
  delivered : List Char
  failed : Bool
  deriving DecidableEq, Repr

/-- The object-store oracle: bucket, key, start, stop ↦ stream outcome. -/
abbrev Fetch := List Char → List Char → Int → Int → FetchResult

/-- Model of `openS3RangePipe`: decode the ref; an unusable ref (`!ok`,
empty bucket or key, or `end <= start`) yields no body (the `nil` reader
with an empty error channel); otherwise the ranged read's stream. -/
def openS3RangePipe (fetch : Fetch) (ref : List Char) : Option FetchResult :=
  let p := parseS3Ref ref
  if p.ok = false ∨ p.bucket = [] ∨ p.key = [] ∨ p.stop ≤ p.start then none
  else some (fetch p.bucket p.key p.start p.stop)

/-- Model of `writeField`: the static key prefix; then, with no body, the
empty-object token; with a body, whatever bytes the stream delivers,
followed by the empty-object token exactly when the stream reports an
error. -/
def writeField (pfx : List Char) (st : Option FetchResult) : List Char :=
  pfx ++
    match st with
    | none => emptyObj
    | some res => res.delivered ++ (if res.failed then emptyObj else [])

/-- The literal key written before each field's bytes. -/
def fieldKey : FieldName → List Char
  | .inputs => ",\"inputs\":".data
  | .outputs => ",\"outputs\":".data
  | .metadata => ",\"metadata\":".data

/-- The literal row prefix: id, trace id and the marshalled name
(`goQuote` stands in for `json.Marshal` of a string). -/
def rowHead (row : RunOffsets) : List Char :=
  lbrace :: ("\"id\":\"".data ++ (uuidString row.id ++ ("\",\"trace_id\":\"".data ++
    (uuidString row.traceID ++ ("\",\"name\":".data ++ goQuote row.name)))))

/-- The streamed body of a successful read: the row prefix, then the
three fields in the fixed order inputs, outputs, metadata, then the
closing brace. -/
def getRunBody (fetch : Fetch) (row : RunOffsets) : List Char :=
  rowHead row
  ++ (writeField (fieldKey .inputs) (openS3RangePipe fetch row.inputsRef)
  ++ (writeField (fieldKey .outputs) (openS3RangePipe fetch row.outputsRef)
  ++ (writeField (fieldKey .metadata) (openS3RangePipe fetch row.metadataRef)
  ++ [rbrace])))

/-- The read endpoint's responses. -/
inductive GetResponse where
  | badRequest (msg : List Char)
  | notFound (msg : List Char)
  | found (body : List Char)
  deriving DecidableEq, Repr

/-- Model of `getRunHandler`: parse the identifier, load the row from the
index store (`db` oracle), then answer 200 with the streamed body; a
malformed id is a client error and a missing row is not-found. -/
def getRunHandler (db : UUIDv → Option RunOffsets) (fetch : Fetch)
    (idStr : List Char) : GetResponse :=
  match uuidParse idStr with
  | none => .badRequest "id must be a valid UUID".data
  | some id =>
    match db id with
    | none => .notFound ("Run with ID ".data ++ (idStr ++ " not found".data))
    | some row => .found (getRunBody fetch row)

/-- The body assembled against an explicit completion order: the three
concurrent reads finish in the order `completions` lists them, but each
field's bytes are emitted at that field's fixed position, because each
`writeField` call blocks on its own stream. -/
def getRunBodyScheduled (row : RunOffsets)
    (completions : List (FieldName × Option FetchResult)) : List Char :=
  rowHead row
  ++ (writeField (fieldKey .inputs) ((completions.lookup .inputs).getD none)
  ++ (writeField (fieldKey .outputs) ((completions.lookup .outputs).getD none)
  ++ (writeField (fieldKey .metadata) ((completions.lookup .metadata).getD none)
  ++ [rbrace])))

theorem lookup_map_self (f : FieldName → Option FetchResult) :
    ∀ (order : List FieldName) (k : FieldName), k ∈ order →
    (order.map fun j => (j, f j)).lookup k = some (f k) := by
  intro order
  induction order with
  | nil => intro k hk; cases hk
  | cons a rest ih =>
    intro k hk
    simp only [List.map_cons, List.lookup]
    by_cases hak : k = a
    · subst hak
      simp
    · have hbeq : (k == a) = false := by
        simp [hak]
      rw [hbeq]
      exact ih k (by rcases List.mem_cons.mp hk with h | h; exact absurd h hak; exact h)

/-- C9: the successful read body is the fixed concatenation — literal
row prefix, then the inputs, outputs and metadata keys and values in that
order, then the closing brace — and assembling against any completion
order of the three concurrent range reads yields that same body. -/
theorem claim_c9 (fetch : Fetch) (row : RunOffsets) (order : List FieldName)
    (hperm : order.Perm [.inputs, .outputs, .metadata]) :
    getRunBodyScheduled row (order.map fun j => (j, openS3RangePipe fetch (refOf row j)))
      = getRunBody fetch row
    ∧ getRunBody fetch row = rowHead row
      ++ (writeField (fieldKey .inputs) (openS3RangePipe fetch row.inputsRef)
      ++ (writeField (fieldKey .outputs) (openS3RangePipe fetch row.outputsRef)
      ++ (writeField (fieldKey .metadata) (openS3RangePipe fetch row.metadataRef)
      ++ [rbrace]))) := by
  have hmem : ∀ k : FieldName, k ∈ order := by
    intro k
    rw [hperm.mem_iff]
    cases k <;> simp
  constructor
  · unfold getRunBodyScheduled getRunBody
    rw [lookup_map_self _ order .inputs (hmem .inputs),
      lookup_map_self _ order .outputs (hmem .outputs),
      lookup_map_self _ order .metadata (hmem .metadata)]
    rfl
  · rfl

/-- Concrete row used by the read-path witnesses. -/
def wRow : RunOffsets :=
  { id := List.replicate 16 0, traceID := List.replicate 16 0, name := "n".data,
    inputsRef := encodeRef "b".data "k".data 0 5 "inputs".data,
    outputsRef := encodeRef "b".data "k".data 5 10 "outputs".data,
    metadataRef := encodeRef "b".data "k".data 10 15 "metadata".data }

/-- A store oracle that answers every range read with the same bytes. -/
def wFetch : Fetch := fun _ _ _ _ => ⟨"[7]".data, false⟩

/-- Witness for claim C9 at a concrete out-of-order completion. -/
theorem claim_c9_witness :
    getRunBodyScheduled wRow
        (([FieldName.metadata, FieldName.inputs, FieldName.outputs]).map fun j =>
          (j, openS3RangePipe wFetch (refOf wRow j)))
      = getRunBody wFetch wRow :=
  (claim_c9 wFetch wRow [FieldName.metadata, FieldName.inputs, FieldName.outputs] (by decide)).1

/-- C2 (amended): with exactly one field's resolution failing — an empty
or undecodable reference, a degenerate range, or a range read that fails
before delivering any bytes — and the other two succeeding, the read
still answers `found`; the failing field renders as the empty object and
the other two render their stored bytes. (A read that fails after
delivering bytes instead emits the delivered prefix followed by the
empty-object token; see the counterexample.) -/
theorem claim_c2_amended (db : UUIDv → Option RunOffsets) (fetch : Fetch)
    (idStr : List Char) (id : UUIDv) (row : RunOffsets) (k : FieldName)
    (bytes : FieldName → List Char)
    (hid : uuidParse idStr = some id) (hrow : db id = some row)
    (hfail : openS3RangePipe fetch (refOf row k) = none
      ∨ openS3RangePipe fetch (refOf row k) = some ⟨[], true⟩)
    (hok : ∀ j : FieldName, j ≠ k →
      openS3RangePipe fetch (refOf row j) = some ⟨bytes j, false⟩) :
    getRunHandler db fetch idStr = .found (rowHead row
      ++ ((fieldKey .inputs ++ (if FieldName.inputs = k then emptyObj else bytes .inputs))
      ++ ((fieldKey .outputs ++ (if FieldName.outputs = k then emptyObj else bytes .outputs))
      ++ ((fieldKey .metadata ++ (if FieldName.metadata = k then emptyObj else bytes .metadata))
      ++ [rbrace])))) := by
  have hfield : ∀ j : FieldName,
      writeField (fieldKey j) (openS3RangePipe fetch (refOf row j))
        = fieldKey j ++ (if j = k then emptyObj else bytes j) := by
    intro j
    by_cases hj : j = k
    · subst hj
      rw [if_pos rfl]
      rcases hfail with hf | hf <;> rw [hf] <;> simp [writeField]
    · rw [if_neg hj, hok j hj]
      simp [writeField]
  have h1 := hfield .inputs
  have h2 := hfield .outputs
  have h3 := hfield .metadata
  simp only [refOf] at h1 h2 h3
  unfold getRunHandler
  simp only [hid, hrow]
  unfold getRunBody
  rw [h1, h2, h3]

/-- Row and store for the C2 witness: the `inputs` read fails before any
byte is delivered, the other two fields succeed. -/
def c2wFetch : Fetch := fun _ _ s _ =>
  if s = 0 then ⟨[], true⟩
  else if s = 5 then ⟨"[1,2]".data, false⟩
  else ⟨"[3]".data, false⟩

/-- The per-field bytes the two healthy reads return. -/
def c2wBytes : FieldName → List Char
  | .inputs => []
  | .outputs => "[1,2]".data
  | .metadata => "[3]".data

/-- Witness for claim C2's amended theorem: the read answers `found`, the
failing `inputs` field renders as the empty object and the other two
render their bytes. -/
theorem claim_c2_witness :
    getRunHandler (fun _ => some wRow) c2wFetch
        "00000000-0000-0000-0000-000000000000".data
      = .found (rowHead wRow
        ++ ((fieldKey .inputs
              ++ (if FieldName.inputs = FieldName.inputs then emptyObj else c2wBytes .inputs))
        ++ ((fieldKey .outputs
              ++ (if FieldName.outputs = FieldName.inputs then emptyObj else c2wBytes .outputs))
        ++ ((fieldKey .metadata
              ++ (if FieldName.metadata = FieldName.inputs then emptyObj else c2wBytes .metadata))
        ++ [rbrace])))) := by
  refine claim_c2_amended (fun _ => some wRow) c2wFetch
    "00000000-0000-0000-0000-000000000000".data (List.replicate 16 0) wRow
    FieldName.inputs c2wBytes (by decide) rfl (Or.inr (by decide)) ?_
  intro j hj
  cases j with
  | inputs => exact absurd rfl hj
  | outputs => decide
  | metadata => decide

/-- A store whose `inputs` read fails only after delivering a prefix of
the requested range. -/
def c2xFetch : Fetch := fun _ _ s _ =>
  if s = 0 then ⟨"[1,".data, true⟩
  else if s = 5 then ⟨"[1,2]".data, false⟩
  else ⟨"[3]".data, false⟩

set_option maxRecDepth 10000 in
/-- C2 counterexample: when the failing range read delivers some bytes
before erroring (a truncated stream), the field does not render as the
empty object — the delivered prefix is written and the empty-object token
is appended after it, so the claim's rendering does not hold as stated. -/
theorem claim_c2_counterexample :
    getRunHandler (fun _ => some wRow) c2xFetch
        "00000000-0000-0000-0000-000000000000".data
      = .found (rowHead wRow
        ++ ((fieldKey .inputs ++ ("[1,".data ++ emptyObj))
        ++ ((fieldKey .outputs ++ "[1,2]".data)
        ++ ((fieldKey .metadata ++ "[3]".data)
        ++ [rbrace]))))
    ∧ "[1,".data ++ emptyObj ≠ emptyObj := by
  constructor
  · decide
  · decide

/-- Modelled store for read-after-write: a ranged `GetObject` against the
bucket/key holding the uploaded blob succeeds within bounds and delivers
exactly the requested byte range; any other request fails with no bytes. -/
def sliceFetch (bucket key blob : List Char) : Fetch := fun b k s e =>
  if b = bucket ∧ k = key ∧ 0 ≤ s ∧ e ≤ (blob.length : Int) then
    ⟨byteSlice blob s.toNat e.toNat, false⟩
  else ⟨[], true⟩

/-- C8 (amended): for a record whose payload field decoded to an empty
`RawMessage` (absent field) or to the compact empty-object bytes, the
encoder emits exactly the two-byte empty-object token, records an
interval with `end = start + 2`, and a read back through the stored
reference renders that field as the empty object. (A field submitted as
JSON `null` is instead emitted as the four raw bytes `null` with
`end = start + 4`; see the counterexample.) -/
theorem claim_c8_amended (bucket objectKey : List Char) (gen : Nat → UUIDv)
    (runs : List RunJSON) (B : List Char) (O : List RunOffsets)
    (i : Nat) (r : RunJSON) (k : FieldName)
    (hb1 : bucket ≠ []) (hb2 : '/' ∉ bucket) (hk1 : objectKey ≠ []) (hk2 : '#' ∉ objectKey)
    (henc : encodeBatch bucket objectKey gen runs = .ok (B, O))
    (hi : runs[i]? = some r)
    (habsent : payloadOf r k = [] ∨ payloadOf r k = emptyObj) :
    ∃ o s e, O[i]? = some o
      ∧ refOf o k = encodeRef bucket objectKey s e (fieldTag k)
      ∧ e = s + 2
      ∧ byteSlice B s e = emptyObj
      ∧ writeField (fieldKey k) (openS3RangePipe (sliceFetch bucket objectKey B) (refOf o k))
          = fieldKey k ++ emptyObj := by
  obtain ⟨o, ho, hf⟩ := (encodeBatch_spec bucket objectKey gen runs B O henc).2 i r hi
  obtain ⟨s, e, href, he, hle, hsl⟩ := hf k
  have hraw : rawOrEmpty (payloadOf r k) = emptyObj := by
    rcases habsent with h | h
    · rw [h]
      unfold rawOrEmpty
      rw [if_pos rfl]
    · rw [h]
      unfold rawOrEmpty
      rw [if_neg (by decide)]
  have he2 : e = s + 2 := by rw [he, hraw]; rfl
  have hslice : byteSlice B s e = emptyObj := by rw [hsl, hraw]
  have hparse : parseS3Ref (refOf o k) = ⟨bucket, objectKey, (s : Int), (e : Int), true⟩ := by
    rw [href]
    exact parseS3Ref_encodeRef bucket objectKey s e (fieldTag k) hb2 hk2
  have hstop : ¬((e : Int) ≤ (s : Int)) := by
    rw [he2]
    push_cast
    omega
  have hfetch : sliceFetch bucket objectKey B bucket objectKey (s : Int) (e : Int)
      = ⟨emptyObj, false⟩ := by
    unfold sliceFetch
    rw [if_pos ⟨rfl, rfl, Int.natCast_nonneg s, by exact_mod_cast hle⟩]
    simp [hslice]
  have hopen : openS3RangePipe (sliceFetch bucket objectKey B) (refOf o k)
      = some ⟨emptyObj, false⟩ := by
    unfold openS3RangePipe
    rw [hparse]
    simp only []
    rw [if_neg (by
      push_neg
      exact ⟨by decide, hb1, hk1, lt_of_not_le hstop⟩)]
    rw [hfetch]
  refine ⟨o, s, e, ho, href, he2, hslice, ?_⟩
  rw [hopen]
  simp [writeField]

/-- A record whose `inputs` field was submitted as JSON `null` (the
decoder leaves the literal four bytes in the `RawMessage`). -/
def c8Run : RunJSON :=
  { id := none, traceID := "00000000-0000-0000-0000-000000000000".data,
    name := [], inputs := rawMessageOf FieldInput.nullLit, outputs := [], metadata := [] }

set_option maxRecDepth 10000 in
/-- C8 counterexample: a payload field submitted as JSON `null` is not
encoded as the empty-object token — the encoder writes the four raw bytes
`null` and records `end = start + 4` (here `[115, 119)`), so the claim's
`null` case fails. -/
theorem claim_c8_counterexample :
    (encodeBatch "b".data "k".data wGen [c8Run]).map (fun p => byteSlice p.1 115 119)
      = .ok "null".data
    ∧ (encodeBatch "b".data "k".data wGen [c8Run]).map
        (fun p => p.2.map (fun o => o.inputsRef))
      = .ok [encodeRef "b".data "k".data 115 119 "inputs".data]
    ∧ c8Run.inputs = rawMessageOf FieldInput.nullLit
    ∧ "null".data ≠ emptyObj
    ∧ (119 : Nat) ≠ 115 + 2 := by
  refine ⟨by rfl, by rfl, rfl, by decide, by decide⟩

set_option maxRecDepth 10000 in
/-- Witness for claim C8's amended theorem: the absent `metadata` field
of a concrete one-record batch. -/
theorem claim_c8_witness :
    ∃ o s e,
      (match encodeBatch "b".data "k".data wGen [wRun] with
        | .ok (_, O) => O
        | .error _ => [])[0]? = some o
      ∧ refOf o .metadata = encodeRef "b".data "k".data s e (fieldTag .metadata)
      ∧ e = s + 2
      ∧ byteSlice (match encodeBatch "b".data "k".data wGen [wRun] with
          | .ok (B, _) => B
          | .error _ => []) s e = emptyObj
      ∧ writeField (fieldKey .metadata)
          (openS3RangePipe (sliceFetch "b".data "k".data
            (match encodeBatch "b".data "k".data wGen [wRun] with
              | .ok (B, _) => B
              | .error _ => []))
            (refOf o .metadata))
          = fieldKey .metadata ++ emptyObj := by
  obtain ⟨B, O, hBO⟩ : ∃ B O, encodeBatch "b".data "k".data wGen [wRun] = .ok (B, O) :=
    ⟨_, _, rfl⟩
  have h := claim_c8_amended "b".data "k".data wGen [wRun] B O 0 wRun .metadata
    (by decide) (by decide) (by decide) (by decide) hBO rfl (Or.inl rfl)
  rw [hBO]
  exact h
